import Mathlib

/-!
Shallow embedding of the content-filter extension
(`src/background.ts`, `src/content.ts`) and proofs about it.

Text is modelled as `List Char` (JavaScript strings at code-point level).
External collaborators are parameters: the two OpenCC converters are
`List Char → List Char` functions, the settings read and the Groq HTTP
exchange are `Except`-valued inputs (a `.error` models a thrown
exception), and `JSON.parse` is an oracle `String → Except String JsVal`.
-/

set_option autoImplicit false

namespace ContentFilter

/-! ## JavaScript string primitives -/

/-- The ASCII whitespace characters recognised by `String.prototype.trim`
and relevant to keyword parsing. -/
def jsWhitespace (c : Char) : Bool :=
  c = ' ' || c = '\t' || c = '\n' || c = '\r' || c = '\x0b' || c = '\x0c'

/-- `String.prototype.trim`: drop leading and trailing whitespace. -/
def trimL (cs : List Char) : List Char :=
  ((cs.dropWhile jsWhitespace).reverse.dropWhile jsWhitespace).reverse

/-- ASCII lowercasing of one character, as `toLowerCase` acts on the
characters appearing in keywords. -/
def lowerChar (c : Char) : Char :=
  if 'A' ≤ c && c ≤ 'Z' then Char.ofNat (c.toNat + 32) else c

/-- `String.prototype.toLowerCase`. -/
def toLowerL (cs : List Char) : List Char := cs.map lowerChar

/-- `String.prototype.split(',')`: split on every comma; the empty string
yields one empty piece. -/
def splitOnComma : List Char → List (List Char)
  | [] => [[]]
  | c :: rest =>
    let r := splitOnComma rest
    if c = ',' then [] :: r
    else
      match r with
      | [] => [[c]]
      | p :: ps => (c :: p) :: ps

/-- `String.prototype.includes`: substring containment. -/
def containsSub (hay needle : List Char) : Bool :=
  (List.range (hay.length + 1)).any fun i => needle.isPrefixOf (hay.drop i)

/-! ## Keyword layer (`src/background.ts`, `parseKeywords` /
`checkKeywordMatch`) -/

/-- `parseKeywords` from `src/background.ts`: comma-split, trim and
lowercase each piece, drop the empty ones; a blank input string parses
to the empty list. -/
def parseKeywords (keywordsString : List Char) : List (List Char) :=
  if trimL keywordsString = [] then []
  else
    ((splitOnComma keywordsString).map fun k => toLowerL (trimL k)).filter
      fun k => k.length > 0

/-- `checkKeywordMatch` from `src/background.ts`: first keyword, in list
order, contained in the lowercased text. -/
def checkKeywordMatch (text : List Char) (keywords : List (List Char)) :
    Option (List Char) :=
  if keywords.length = 0 then none
  else
    let lowerText := toLowerL text
    keywords.find? fun keyword => containsSub lowerText keyword

/-! ## Script-variant layer (`src/background.ts`, `isSimplifiedChinese`) -/

/-- Character in the CJK range matched by the source regex
`[一-鿿]`. -/
def isCJK (c : Char) : Bool :=
  0x4e00 ≤ c.toNat && c.toNat ≤ 0x9fff

/-- Number of CJK characters in the text (`text.match(/[一-鿿]/g)`
length). -/
def cjkCount (text : List Char) : Nat :=
  (text.filter isCJK).length

/-- Per-position divergence count: positions of the original whose
character differs from the converted text at the same index (an index
past the end of the conversion counts as differing, as in JavaScript
where out-of-range indexing yields `undefined`). -/
def diffCount (orig conv : List Char) : Nat :=
  (orig.enum.filter fun p => conv.get? p.1 != some p.2).length

/-- `isSimplifiedChinese` from `src/background.ts`, parameterised by the
two OpenCC converters (external library functions). -/
def isSimplifiedChinese (converterS2T converterT2S : List Char → List Char)
    (text : List Char) : Bool :=
  if cjkCount text < 3 then false
  else
    let s2tDiff := diffCount text (converterS2T text)
    let t2sDiff := diffCount text (converterT2S text)
    decide (s2tDiff > t2sDiff) && decide (s2tDiff > 0)

/-! ## Engine data model (`src/background.ts`) -/

/-- The settings snapshot read by the engine (fields used by
`analyzeText`). -/
structure Settings where
  keywordFilterEnabled : Bool
  keywords : List Char
  simplifiedChineseFilterEnabled : Bool
  aiFilterEnabled : Bool
  groqApiKey : String
  selectedModel : String
  filterDescription : String
  deriving Repr, DecidableEq

/-- The `AnalysisResponse` returned by `analyzeText`. -/
structure AnalysisResponse where
  shouldBlock : Bool
  matched_by : String
  matched_keyword : Option (List Char)
  error : Option String
  deriving Repr, DecidableEq

/-- The fail-open response built in the `catch` branch of `analyzeText`;
`String(error)` on a thrown `Error` yields `"Error: " ++ message`. -/
def failOpenResponse (msg : String) : AnalysisResponse :=
  { shouldBlock := false
    matched_by := "none"
    matched_keyword := none
    error := some ("Error: " ++ msg) }

/-- JavaScript truthiness of the `string | null` result of
`checkKeywordMatch` (`if (matchedKeyword)`). -/
def strOptTruthy : Option (List Char) → Bool
  | none => false
  | some k => !k.isEmpty

/-- Layer 1 of `analyzeText`: the keyword match attempted when the
keyword filter is enabled and the parsed list is non-empty. -/
def keywordStage (settings : Settings) (text : List Char) : Option (List Char) :=
  if settings.keywordFilterEnabled
      && decide ((parseKeywords settings.keywords).length > 0) then
    checkKeywordMatch text (parseKeywords settings.keywords)
  else none

/-- `analyzeText` from `src/background.ts`. `settingsResult` models the
`getSettings()` read (a `.error` is a thrown exception), `aiResult`
models the outcome `analyzeWithGroq` would produce if invoked. Returns
the response paired with whether the AI layer was actually invoked. -/
def analyzeText (converterS2T converterT2S : List Char → List Char)
    (settingsResult : Except String Settings)
    (aiResult : Except String Bool) (text : List Char) :
    AnalysisResponse × Bool :=
  match settingsResult with
  | .error e => (failOpenResponse e, false)
  | .ok settings =>
    let matchedKeyword : Option (List Char) := keywordStage settings text
    if strOptTruthy matchedKeyword then
      ({ shouldBlock := true
         matched_by := "keyword"
         matched_keyword := matchedKeyword
         error := none }, false)
    else if settings.simplifiedChineseFilterEnabled
        && isSimplifiedChinese converterS2T converterT2S text then
      ({ shouldBlock := true
         matched_by := "simplified-chinese"
         matched_keyword := none
         error := none }, false)
    else if !settings.aiFilterEnabled then
      ({ shouldBlock := false, matched_by := "none"
         matched_keyword := none, error := none }, false)
    else if settings.groqApiKey = "" then
      ({ shouldBlock := false, matched_by := "none"
         matched_keyword := none, error := none }, false)
    else
      match aiResult with
      | .ok b =>
        ({ shouldBlock := b, matched_by := "ai"
           matched_keyword := none, error := none }, true)
      | .error e => (failOpenResponse e, true)

/-! ## Content hash (`src/content.ts`, `hashText`) -/

/-- Wrap an integer into the signed 32-bit range, as JavaScript bitwise
operators do (`ToInt32`). -/
def toInt32 (x : Int) : Int :=
  (x + 2 ^ 31) % 2 ^ 32 - 2 ^ 31

/-- One loop iteration of `hashText`: `hash = (hash << 5) - hash + char;
hash = hash & hash`. The shift wraps at 32 bits; the final `& hash`
coerces the exact intermediate sum back to a signed 32-bit integer. -/
def hashStep (hash : Int) (char : Nat) : Int :=
  toInt32 (toInt32 (hash * 32) - hash + char)

/-- UTF-16 code units of one code point (`charCodeAt` walks code
units). -/
def utf16CodeUnits (c : Char) : List Nat :=
  if c.toNat < 0x10000 then [c.toNat]
  else
    [0xd800 + (c.toNat - 0x10000) / 0x400,
     0xdc00 + (c.toNat - 0x10000) % 0x400]

/-- Digit character for base-36 (`0`-`9a`-`z`), as
`Number.prototype.toString(36)` uses. -/
def base36Digit (d : Nat) : Char :=
  if d < 10 then Char.ofNat (48 + d) else Char.ofNat (87 + d)

/-- Base-36 digit list of a natural number, most significant first
(empty for zero). Fuel-structured so that it computes by `decide`. -/
def natToBase36Core (fuel n : Nat) : List Char :=
  match fuel with
  | 0 => []
  | fuel + 1 =>
    if n = 0 then []
    else natToBase36Core fuel (n / 36) ++ [base36Digit (n % 36)]

/-- Base-36 digits of a natural number; `n + 1` fuel always suffices. -/
def natToBase36 (n : Nat) : List Char :=
  natToBase36Core (n + 1) n

/-- `Number.prototype.toString(36)` on an integer: sign followed by the
base-36 digits of the absolute value, `"0"` for zero. -/
def jsToString36 (n : Int) : List Char :=
  let digits := natToBase36 n.natAbs
  let s := if digits = [] then ['0'] else digits
  if n < 0 then '-' :: s else s

/-- `hashText` from `src/content.ts`: fold the 32-bit rolling hash over
the UTF-16 code units and render it in base 36. -/
def hashText (text : List Char) : List Char :=
  jsToString36 (((text.map utf16CodeUnits).flatten).foldl hashStep 0)

/-! ## Content-script scan state (`src/content.ts`) -/

/-- Minimum text length to analyze. -/
def MIN_TEXT_LENGTH : Nat := 10

/-- A candidate element: an abstract identity and its text content. -/
structure Elem where
  id : Nat
  text : List Char
  deriving Repr, DecidableEq

/-- The page-wide mutable state of the content script: `analyzedTexts`
(hashes already analyzed), the `processing` / `processed` element sets,
and a log `sent` of the hashes for which a classification request was
dispatched (the observable `chrome.runtime.sendMessage` calls). -/
structure PageState where
  analyzedTexts : List (List Char)
  processing : List Nat
  processed : List Nat
  sent : List (List Char)
  deriving Repr, DecidableEq

/-- The state at page load: all sets empty. -/
def initPageState : PageState :=
  { analyzedTexts := [], processing := [], processed := [], sent := [] }

/-- The three-dot placeholder text shown while a request is in flight. -/
def placeholderText : List Char := ['.', '.', '.']

/-- The synchronous prefix of `analyzeElement` (`src/content.ts`): the
code up to the first suspension point (`await sendMessage`). `view` is
the currently displayed content of the element. Short text returns
unchanged; a hash already in `analyzedTexts` marks the element
processed and returns, touching neither the view nor the network;
otherwise the hash and element are recorded, the placeholder is shown
and the request is dispatched. -/
def analyzeElementSync (st : PageState) (e : Elem) (view : List Char) :
    PageState × List Char :=
  if e.text.length < MIN_TEXT_LENGTH then (st, view)
  else
    let textHash := hashText e.text
    if textHash ∈ st.analyzedTexts then
      ({ st with processed := e.id :: st.processed }, view)
    else
      ({ st with
          analyzedTexts := textHash :: st.analyzedTexts
          processing := e.id :: st.processing
          sent := textHash :: st.sent }, placeholderText)

/-- Run the synchronous prefixes of a sequence of analysis tasks. In
the single-threaded event loop the prefix of every task runs atomically, so
any interleaving of enqueued tasks is some such sequence. -/
def runElems (st : PageState) : List Elem → PageState
  | [] => st
  | e :: es => runElems (analyzeElementSync st e e.text).1 es

/-! ## Batch scheduler (`src/content.ts`, `processElements`) -/

/-- An observable scheduling event: a group of elements dispatched
concurrently (`Promise.all`), or a timed yield (`setTimeout`). -/
inductive SchedEvent where
  | batch (elems : List Elem)
  | yield (ms : Nat)
  deriving Repr, DecidableEq

/-- The event trace of `processElements`: the loop takes 5 elements at
a time, dispatches them as one group, then yields 100ms. Fuel-structured
(one fuel per loop iteration; the list length always suffices). -/
def processElementsCore (fuel : Nat) (es : List Elem) : List SchedEvent :=
  match fuel with
  | 0 => []
  | fuel + 1 =>
    if es.isEmpty then []
    else
      SchedEvent.batch (es.take 5) :: SchedEvent.yield 100 ::
        processElementsCore fuel (es.drop 5)

/-- `processElements` from `src/content.ts`, as its scheduling trace. -/
def processElements (es : List Elem) : List SchedEvent :=
  processElementsCore es.length es

/-- The in-order partition of the queue into groups of at most 5, for
stating properties of the trace. -/
def chunks5Core (fuel : Nat) (es : List Elem) : List (List Elem) :=
  match fuel with
  | 0 => []
  | fuel + 1 =>
    if es.isEmpty then []
    else es.take 5 :: chunks5Core fuel (es.drop 5)

/-- The groups `processElements` dispatches, in order. -/
def chunks5 (es : List Elem) : List (List Elem) :=
  chunks5Core es.length es

/-- The group sizes as a function of the queue length only. -/
def chunkLens (fuel n : Nat) : List Nat :=
  match fuel with
  | 0 => []
  | fuel + 1 => if n = 0 then [] else min 5 n :: chunkLens fuel (n - 5)

/-! ## AI classifier (`src/background.ts`, `analyzeWithGroq`) -/

/-- A JavaScript value, as far as the response handling observes it. -/
inductive JsVal where
  | undefined
  | null
  | bool (b : Bool)
  | num (n : Int)
  | str (s : String)
  | arr (xs : List JsVal)
  | obj (fields : List (String × JsVal))

/-- `undefined` or `null`: the receivers on which member access throws
and at which an optional chain short-circuits. -/
def jsNullish : JsVal → Bool
  | .undefined => true
  | .null => true
  | _ => false

/-- JavaScript truthiness (`Boolean(v)`, `if (!v)`). -/
def jsTruthy : JsVal → Bool
  | .undefined => false
  | .null => false
  | .bool b => b
  | .num n => n != 0
  | .str s => s ≠ ""
  | .arr _ => true
  | .obj _ => true

/-- Property lookup on the field list of an object; a missing field is
`undefined`. -/
def jsLookup (fields : List (String × JsVal)) (key : String) : JsVal :=
  match fields.find? (fun p => p.1 == key) with
  | some p => p.2
  | none => .undefined

/-- Member access on a value known not to be nullish: objects look up
the field, other values have no such own property. -/
def jsMemberNN (v : JsVal) (key : String) : JsVal :=
  match v with
  | .obj fields => jsLookup fields key
  | _ => .undefined

/-- Member access `v.key`: throws a `TypeError` on `undefined`/`null`. -/
def jsMember (v : JsVal) (key : String) : Except String JsVal :=
  if jsNullish v then .error "TypeError"
  else .ok (jsMemberNN v key)

/-- Index access `v[i]` on a non-nullish receiver. -/
def jsIndexNN (v : JsVal) (i : Nat) : JsVal :=
  match v with
  | .arr xs => (xs.get? i).getD .undefined
  | .str s =>
    match s.toList.get? i with
    | some c => .str (String.mk [c])
    | none => .undefined
  | .obj fields => jsLookup fields (toString i)
  | _ => .undefined

/-- The access `data.choices?.[0]?.message?.content` in
`analyzeWithGroq`: plain member access on `data` (may throw), then an
optional chain that short-circuits to `undefined` at the first nullish
link. -/
def getContent (data : JsVal) : Except String JsVal := do
  let choices ← jsMember data "choices"
  if jsNullish choices then pure .undefined
  else
    let c0 := jsIndexNN choices 0
    if jsNullish c0 then pure .undefined
    else
      let msg := jsMemberNN c0 "message"
      if jsNullish msg then pure .undefined
      else pure (jsMemberNN msg "content")

/-- The opening brace character. -/
def braceOpen : Char := Char.ofNat 0x7b

/-- The closing brace character. -/
def braceClose : Char := Char.ofNat 0x7d

/-- Index of the last occurrence satisfying `p`, if any. -/
def lastIdxOf (p : Char → Bool) (cs : List Char) : Option Nat :=
  match cs.reverse.findIdx? p with
  | some j => some (cs.length - 1 - j)
  | none => none

/-- `content.match(/\x7b[\s\S]*\x7d/)`: the greedy regex matches from
the first opening brace to the last closing brace, when the latter
comes after the former; otherwise there is no match. -/
def jsonObjectMatch (s : String) : Option String :=
  let cs := s.toList
  match cs.findIdx? (fun c => c = braceOpen), lastIdxOf (fun c => c = braceClose) cs with
  | some i, some j =>
    if i < j then some (String.mk ((cs.drop i).take (j - i + 1)))
    else none
  | _, _ => none

/-- The HTTP exchange of `analyzeWithGroq`: success flag and status,
the text body used in the error message, and the outcome of
`response.json()` (a `.error` is a thrown exception). -/
structure GroqHttpResponse where
  ok : Bool
  status : Nat
  errorBody : String
  jsonBody : Except String JsVal

/-- `analyzeWithGroq` from `src/background.ts`, with `JSON.parse`
supplied as an oracle. A returned `.error` models a thrown exception;
errors raised inside the parse `try` block are re-thrown wrapped in
`Failed to parse LLM response`. -/
def analyzeWithGroq (jsonParse : String → Except String JsVal)
    (resp : GroqHttpResponse) : Except String Bool :=
  if !resp.ok then
    .error ("Groq API error: " ++ toString resp.status ++ " - " ++ resp.errorBody)
  else do
    let data ← resp.jsonBody
    let content ← getContent data
    if !jsTruthy content then
      .error "No content in Groq response"
    else
      match content with
      | .str s =>
        match jsonObjectMatch s with
        | some sub =>
          match jsonParse sub with
          | .ok parsed =>
            match jsMember parsed "shouldBlock" with
            | .ok v => .ok (jsTruthy v)
            | .error e => .error ("Failed to parse LLM response: " ++ e)
          | .error e => .error ("Failed to parse LLM response: " ++ e)
        | none =>
          .error "Failed to parse LLM response: Error: No JSON found in response"
      | _ =>
        .error "Failed to parse LLM response: TypeError: content.match is not a function"

/-! ## Concrete fixtures used by witnesses and counterexamples -/

/-- A CJK character (U+4E00). -/
def sampleCJK1 : Char := Char.ofNat 0x4e00

/-- Another CJK character (U+4E01). -/
def sampleCJK2 : Char := Char.ofNat 0x4e01

/-- A concrete Simplified-to-Traditional converter mapping U+4E00 to
U+4E01 and fixing everything else. -/
def sampleConvS2T : List Char → List Char :=
  fun l => l.map fun c => if c = sampleCJK1 then sampleCJK2 else c

/-- A text of three identical CJK characters, all changed by
`sampleConvS2T` and fixed by the identity reverse converter. -/
def sampleScriptText : List Char := [sampleCJK1, sampleCJK1, sampleCJK1]

/-- A settings snapshot with the keyword layer configured. -/
def sampleSettingsKeyword : Settings :=
  { keywordFilterEnabled := true
    keywords := "Spoiler, hate".toList
    simplifiedChineseFilterEnabled := false
    aiFilterEnabled := true
    groqApiKey := "gsk_test"
    selectedModel := "llama-3.3-70b-versatile"
    filterDescription := "toxic content" }

/-- A settings snapshot with only the Simplified-Chinese layer on. -/
def sampleSettingsScript : Settings :=
  { keywordFilterEnabled := true
    keywords := []
    simplifiedChineseFilterEnabled := true
    aiFilterEnabled := false
    groqApiKey := ""
    selectedModel := "llama-3.3-70b-versatile"
    filterDescription := "toxic content" }

/-- A settings snapshot whose keywords string holds only commas and
whitespace. -/
def sampleSettingsCommas : Settings :=
  { keywordFilterEnabled := true
    keywords := " ,, , ".toList
    simplifiedChineseFilterEnabled := false
    aiFilterEnabled := false
    groqApiKey := ""
    selectedModel := "llama-3.3-70b-versatile"
    filterDescription := "toxic content" }

/-- A reply body whose shouldBlock field is a (truthy) string. -/
def sampleBodyNo : String := "\x7b\"shouldBlock\": \"no\"\x7d"

/-- `JSON.parse` on `sampleBodyNo` (its actual JavaScript value). -/
def sampleParseNo : String → Except String JsVal := fun s =>
  if s = sampleBodyNo then .ok (.obj [("shouldBlock", .str "no")])
  else .error "SyntaxError: Unexpected token"

/-- A successful HTTP exchange whose model reply is `sampleBodyNo`. -/
def sampleRespNo : GroqHttpResponse :=
  { ok := true, status := 200, errorBody := ""
    jsonBody := .ok (.obj [("choices",
      .arr [.obj [("message", .obj [("content", .str sampleBodyNo)])]])]) }

/-- A reply body with a proper boolean shouldBlock field. -/
def sampleBodyYes : String := "\x7b\"shouldBlock\": true\x7d"

/-- `JSON.parse` on `sampleBodyYes` (its actual JavaScript value). -/
def sampleParseYes : String → Except String JsVal := fun s =>
  if s = sampleBodyYes then .ok (.obj [("shouldBlock", .bool true)])
  else .error "SyntaxError: Unexpected token"

/-- A successful HTTP exchange whose model reply is `sampleBodyYes`. -/
def sampleRespYes : GroqHttpResponse :=
  { ok := true, status := 200, errorBody := ""
    jsonBody := .ok (.obj [("choices",
      .arr [.obj [("message", .obj [("content", .str sampleBodyYes)])]])]) }

/-- A concrete candidate element with analyzable text. -/
def sampleElem : Elem := { id := 0, text := "hello world dedup".toList }

/-- Twelve queued fragments. -/
def sampleQueue12 : List Elem :=
  (List.range 12).map fun i => { id := i, text := [] }

/-! ## Theorems -/

/-- C3: `isSimplifiedChinese` returns true exactly when the text has at
least 3 CJK-range characters, the Simplified-to-Traditional conversion
changes strictly more positions than the Traditional-to-Simplified one,
and the forward-change count is nonzero; in particular any text with
fewer than 3 qualifying characters yields false. -/
theorem isSimplifiedChinese_characterization
    (converterS2T converterT2S : List Char → List Char) (text : List Char) :
    (isSimplifiedChinese converterS2T converterT2S text = true ↔
      3 ≤ cjkCount text
      ∧ diffCount text (converterT2S text) < diffCount text (converterS2T text)
      ∧ 0 < diffCount text (converterS2T text))
    ∧ (cjkCount text < 3 →
        isSimplifiedChinese converterS2T converterT2S text = false) := by
  constructor
  · unfold isSimplifiedChinese
    split_ifs with h
    · simp
      omega
    · simp [gt_iff_lt]
      intro _ _
      omega
  · intro h
    unfold isSimplifiedChinese
    rw [if_pos h]

/-- Witness for C3 at a concrete input: two CJK characters are below the
threshold, so the detector answers false. -/
theorem isSimplifiedChinese_characterization_witness :
    isSimplifiedChinese sampleConvS2T id [sampleCJK1, sampleCJK1] = false :=
  (isSimplifiedChinese_characterization sampleConvS2T id
    [sampleCJK1, sampleCJK1]).2 (by decide)

/-! Helper lemmas for the hash bound (C8). -/

theorem toInt32_bounds (x : Int) : -(2 ^ 31) ≤ toInt32 x ∧ toInt32 x < 2 ^ 31 := by
  unfold toInt32
  have h1 : 0 ≤ (x + 2 ^ 31) % 2 ^ 32 := Int.emod_nonneg _ (by norm_num)
  have h2 : (x + 2 ^ 31) % 2 ^ 32 < 2 ^ 32 := Int.emod_lt_of_pos _ (by norm_num)
  omega

theorem foldl_hashStep_bounds (l : List Nat) (init : Int)
    (h : -(2 ^ 31) ≤ init ∧ init < 2 ^ 31) :
    -(2 ^ 31) ≤ l.foldl hashStep init ∧ l.foldl hashStep init < 2 ^ 31 := by
  induction l generalizing init with
  | nil => exact h
  | cons c cs ih => exact ih (hashStep init c) (toInt32_bounds _)

theorem natToBase36Core_length_le (fuel : Nat) :
    ∀ n k : Nat, n < 36 ^ k → (natToBase36Core fuel n).length ≤ k := by
  induction fuel with
  | zero => intro n k _; simp [natToBase36Core]
  | succ fuel ih =>
    intro n k hk
    unfold natToBase36Core
    split_ifs with h0
    · simp
    · have hkpos : k ≠ 0 := by
        intro hk0
        rw [hk0, pow_zero] at hk
        omega
      obtain ⟨k', rfl⟩ := Nat.exists_eq_succ_of_ne_zero hkpos
      have hdiv : n / 36 < 36 ^ k' := by
        rw [Nat.div_lt_iff_lt_mul (by norm_num)]
        calc n < 36 ^ (k' + 1) := hk
          _ = 36 ^ k' * 36 := by ring
      have := ih (n / 36) k' hdiv
      simp only [List.length_append, List.length_cons, List.length_nil]
      omega

theorem jsToString36_length (n : Int) (h : n.natAbs ≤ 2 ^ 31) :
    1 ≤ (jsToString36 n).length ∧ (jsToString36 n).length ≤ 7 := by
  have hlt : n.natAbs < 36 ^ 6 := by
    calc n.natAbs ≤ 2 ^ 31 := h
      _ < 36 ^ 6 := by norm_num
  have hle := natToBase36Core_length_le (n.natAbs + 1) n.natAbs 6 hlt
  simp only [jsToString36, natToBase36]
  by_cases hnil : natToBase36Core (n.natAbs + 1) n.natAbs = []
  · rw [hnil]
    split_ifs <;> simp_all
  · have hpos : 1 ≤ (natToBase36Core (n.natAbs + 1) n.natAbs).length :=
      List.length_pos.mpr hnil
    split_ifs <;> simp_all <;> omega

/-- C8 (amended): `hashText` is deterministic, but its output is a
base-36 rendering whose length varies between 1 and 7 characters; it is
not of one fixed width. -/
theorem hashText_length_bounds (text other : List Char) :
    (1 ≤ (hashText text).length ∧ (hashText text).length ≤ 7)
    ∧ (text = other → hashText text = hashText other) := by
  constructor
  · unfold hashText
    have hb := foldl_hashStep_bounds ((text.map utf16CodeUnits).flatten) 0
      (by omega)
    exact jsToString36_length _ (by omega)
  · intro h
    rw [h]

/-- Witness for C8 at a concrete input. -/
theorem hashText_length_bounds_witness :
    (1 ≤ (hashText ['a']).length ∧ (hashText ['a']).length ≤ 7)
    ∧ hashText ['a'] = hashText ['a'] :=
  ⟨(hashText_length_bounds ['a'] ['a']).1,
   (hashText_length_bounds ['a'] ['a']).2 rfl⟩

/-- C8 counterexample: the hash of the empty text is one character long
while the hash of a one-letter text is two characters long, so the
produced value is not of one fixed width. -/
theorem hashText_not_fixed_width :
    (hashText []).length ≠ (hashText ['a']).length := by decide

/-! Helper lemmas for the keyword layer. -/

theorem splitOnComma_chars :
    ∀ (s piece : List Char), piece ∈ splitOnComma s →
      ∀ c ∈ piece, c ∈ s ∧ c ≠ ',' := by
  intro s
  induction s with
  | nil =>
    intro piece hp c hc
    simp only [splitOnComma, List.mem_singleton] at hp
    subst hp
    simp at hc
  | cons a rest ih =>
    intro piece hp c hc
    simp only [splitOnComma] at hp
    by_cases ha : a = ','
    · rw [if_pos ha] at hp
      rcases List.mem_cons.mp hp with h | h
      · subst h; simp at hc
      · obtain ⟨hin, hne⟩ := ih piece h c hc
        exact ⟨List.mem_cons_of_mem _ hin, hne⟩
    · rw [if_neg ha] at hp
      rcases hr : splitOnComma rest with _ | ⟨p, ps⟩
      · rw [hr] at hp
        simp only [List.mem_singleton] at hp
        subst hp
        simp only [List.mem_singleton] at hc
        subst hc
        exact ⟨List.mem_cons_self _ _, ha⟩
      · rw [hr] at hp
        rcases List.mem_cons.mp hp with h | h
        · subst h
          rcases List.mem_cons.mp hc with rfl | hcp
          · exact ⟨List.mem_cons_self _ _, ha⟩
          · have hmem : p ∈ splitOnComma rest := by
              rw [hr]; exact List.mem_cons_self _ _
            obtain ⟨hin, hne⟩ := ih p hmem c hcp
            exact ⟨List.mem_cons_of_mem _ hin, hne⟩
        · have hmem : piece ∈ splitOnComma rest := by
            rw [hr]; exact List.mem_cons_of_mem _ h
          obtain ⟨hin, hne⟩ := ih piece hmem c hc
          exact ⟨List.mem_cons_of_mem _ hin, hne⟩

theorem trimL_eq_nil (piece : List Char)
    (h : ∀ c ∈ piece, jsWhitespace c = true) : trimL piece = [] := by
  unfold trimL
  rw [List.dropWhile_eq_nil_iff.mpr h]
  simp

theorem parseKeywords_mem (s k : List Char) (h : k ∈ parseKeywords s) :
    ∃ piece ∈ splitOnComma s, k = toLowerL (trimL piece) := by
  unfold parseKeywords at h
  split_ifs at h with ht
  · simp at h
  · obtain ⟨hmap, _⟩ := List.mem_filter.mp h
    obtain ⟨piece, hpiece, hk⟩ := List.mem_map.mp hmap
    exact ⟨piece, hpiece, hk.symm⟩

theorem parseKeywords_ne_nil (s k : List Char) (h : k ∈ parseKeywords s) :
    k ≠ [] := by
  unfold parseKeywords at h
  split_ifs at h with ht
  · simp at h
  · obtain ⟨_, hlen⟩ := List.mem_filter.mp h
    intro hknil
    subst hknil
    simp at hlen

theorem keywordStage_some (settings : Settings) (text k : List Char)
    (h : keywordStage settings text = some k) :
    settings.keywordFilterEnabled = true
    ∧ checkKeywordMatch text (parseKeywords settings.keywords) = some k := by
  unfold keywordStage at h
  split_ifs at h with hc
  exact ⟨((Bool.and_eq_true _ _).mp hc).1, h⟩

theorem parseKeywords_all_sep (s : List Char)
    (h : ∀ c ∈ s, c = ',' ∨ jsWhitespace c = true) : parseKeywords s = [] := by
  unfold parseKeywords
  split_ifs with ht
  · rfl
  · apply List.filter_eq_nil_iff.mpr
    intro k hk
    obtain ⟨piece, hpiece, hkp⟩ := List.mem_map.mp hk
    have hws : ∀ c ∈ piece, jsWhitespace c = true := by
      intro c hc
      obtain ⟨hin, hne⟩ := splitOnComma_chars s piece hpiece c hc
      rcases h c hin with hcomma | hcws
      · exact absurd hcomma hne
      · exact hcws
    rw [trimL_eq_nil piece hws] at hkp
    simp [← hkp, toLowerL]

/-- C2: with the keyword layer enabled, a non-empty parsed keyword list
and a text containing some configured keyword case-insensitively, the
engine blocks with provenance "keyword" and matched keyword the first
keyword in list order contained in the lowercased text; the AI layer is
not invoked (second component false). -/
theorem analyzeText_keyword_blocks (converterS2T converterT2S : List Char → List Char)
    (settings : Settings) (aiResult : Except String Bool) (text : List Char)
    (hEnabled : settings.keywordFilterEnabled = true)
    (hNonempty : parseKeywords settings.keywords ≠ [])
    (hContains : ∃ k ∈ parseKeywords settings.keywords,
      containsSub (toLowerL text) k = true) :
    ∃ k, (parseKeywords settings.keywords).find?
        (fun keyword => containsSub (toLowerL text) keyword) = some k
      ∧ analyzeText converterS2T converterT2S (.ok settings) aiResult text =
        ({ shouldBlock := true, matched_by := "keyword"
           matched_keyword := some k, error := none }, false) := by
  have hsome : ((parseKeywords settings.keywords).find?
      (fun keyword => containsSub (toLowerL text) keyword)).isSome :=
    List.find?_isSome.mpr (by
      obtain ⟨k, hk, hc⟩ := hContains
      exact ⟨k, hk, hc⟩)
  obtain ⟨k, hk⟩ := Option.isSome_iff_exists.mp hsome
  refine ⟨k, hk, ?_⟩
  have hlen : ¬((parseKeywords settings.keywords).length = 0) := by
    simpa [List.length_eq_zero] using hNonempty
  have hmatch : checkKeywordMatch text (parseKeywords settings.keywords) = some k := by
    unfold checkKeywordMatch
    rw [if_neg hlen]
    exact hk
  have hkne : k.isEmpty = false := by
    simp [List.isEmpty_iff]
    exact parseKeywords_ne_nil _ _ (List.mem_of_find?_eq_some hk)
  have hks : keywordStage settings text = some k := by
    unfold keywordStage
    rw [if_pos]
    · exact hmatch
    · simp [hEnabled, Nat.pos_of_ne_zero hlen]
  simp [analyzeText, hks, strOptTruthy, hkne]

/-- Witness for C2 at concrete settings and text. -/
theorem analyzeText_keyword_blocks_witness :
    ∃ k, (parseKeywords sampleSettingsKeyword.keywords).find?
        (fun keyword => containsSub (toLowerL "A big SPOILER ahead".toList) keyword)
        = some k
      ∧ analyzeText id id (.ok sampleSettingsKeyword) (.ok false)
          "A big SPOILER ahead".toList =
        ({ shouldBlock := true, matched_by := "keyword"
           matched_keyword := some k, error := none }, false) :=
  analyzeText_keyword_blocks id id sampleSettingsKeyword (.ok false)
    "A big SPOILER ahead".toList rfl (by decide) (by decide)

theorem error_prefix_ne_empty (e : String) : "Error: " ++ e ≠ "" := by
  intro h
  have hlen := congrArg String.length h
  rw [String.length_append] at hlen
  have h7 : "Error: ".length = 7 := rfl
  have h0 : ("" : String).length = 0 := rfl
  omega

/-- C1: the engine fails open. A settings-read exception or a failing
AI call yields an allow verdict with provenance "none" and a non-empty
error string, and a block verdict can only arise from a successful
keyword match, a successful script-variant detection, or a successful
AI classification returning true. (`analyzeText` is a total function of
its modelled inputs, so it never throws.) -/
theorem analyzeText_fail_open (converterS2T converterT2S : List Char → List Char)
    (settingsResult : Except String Settings) (aiResult : Except String Bool)
    (text : List Char) :
    (∀ e, settingsResult = .error e →
      ((analyzeText converterS2T converterT2S settingsResult aiResult text).1.shouldBlock = false
        ∧ (analyzeText converterS2T converterT2S settingsResult aiResult text).1.matched_by = "none"
        ∧ ∃ s, (analyzeText converterS2T converterT2S settingsResult aiResult text).1.error = some s
            ∧ s ≠ ""))
    ∧ (∀ e, aiResult = .error e →
        (analyzeText converterS2T converterT2S settingsResult aiResult text).2 = true →
        ((analyzeText converterS2T converterT2S settingsResult aiResult text).1.shouldBlock = false
          ∧ (analyzeText converterS2T converterT2S settingsResult aiResult text).1.matched_by = "none"
          ∧ ∃ s, (analyzeText converterS2T converterT2S settingsResult aiResult text).1.error = some s
              ∧ s ≠ ""))
    ∧ ((analyzeText converterS2T converterT2S settingsResult aiResult text).1.shouldBlock = true →
        ((analyzeText converterS2T converterT2S settingsResult aiResult text).1.matched_by = "keyword"
            ∧ ∃ settings k, settingsResult = .ok settings
                ∧ settings.keywordFilterEnabled = true
                ∧ checkKeywordMatch text (parseKeywords settings.keywords) = some k)
          ∨ ((analyzeText converterS2T converterT2S settingsResult aiResult text).1.matched_by
                = "simplified-chinese"
              ∧ ∃ settings, settingsResult = .ok settings
                  ∧ settings.simplifiedChineseFilterEnabled = true
                  ∧ isSimplifiedChinese converterS2T converterT2S text = true)
          ∨ ((analyzeText converterS2T converterT2S settingsResult aiResult text).1.matched_by = "ai"
              ∧ aiResult = .ok true)) := by
  rcases settingsResult with e0 | settings
  · have hred : analyzeText converterS2T converterT2S (.error e0) aiResult text
        = (failOpenResponse e0, false) := rfl
    refine ⟨?_, ?_, ?_⟩
    · intro e he
      cases he
      rw [hred]
      exact ⟨rfl, rfl, "Error: " ++ e0, rfl, error_prefix_ne_empty e0⟩
    · intro e _ hinv
      rw [hred] at hinv
      simp at hinv
    · intro hblock
      rw [hred] at hblock
      simp [failOpenResponse] at hblock
  · refine ⟨?_, ?_, ?_⟩
    · intro e he
      cases he
    · intro e he hinv
      subst he
      simp only [analyzeText] at hinv ⊢
      split_ifs at hinv ⊢ with h1 h2 h3 h4
      all_goals exact ⟨rfl, rfl, "Error: " ++ e, rfl, error_prefix_ne_empty e⟩
    · intro hblock
      simp only [analyzeText] at hblock ⊢
      split_ifs at hblock ⊢ with h1 h2 h3 h4
      · refine Or.inl ⟨rfl, ?_⟩
        rcases hks : keywordStage settings text with _ | k
        · rw [hks] at h1
          simp [strOptTruthy] at h1
        · obtain ⟨hen, hck⟩ := keywordStage_some settings text k hks
          exact ⟨settings, k, rfl, hen, hck⟩
      · refine Or.inr (Or.inl ⟨rfl, settings, rfl, ?_, ?_⟩)
        · exact ((Bool.and_eq_true _ _).mp h2).1
        · exact ((Bool.and_eq_true _ _).mp h2).2
      · rcases aiResult with e | b
        · simp [failOpenResponse] at hblock
        · refine Or.inr (Or.inr ⟨rfl, ?_⟩)
          have hb : b = true := by simpa using hblock
          rw [hb]

/-- Witness for C1: a failing settings read produces the fail-open
allow verdict with a non-empty diagnostic. -/
theorem analyzeText_fail_open_witness :
    (analyzeText id id (.error "storage unavailable") (.ok false) []).1.shouldBlock = false
    ∧ (analyzeText id id (.error "storage unavailable") (.ok false) []).1.matched_by = "none"
    ∧ ∃ s, (analyzeText id id (.error "storage unavailable") (.ok false) []).1.error = some s
        ∧ s ≠ "" :=
  (analyzeText_fail_open id id (.error "storage unavailable") (.ok false) []).1
    "storage unavailable" rfl

/-- C5: with the script layer enabled, no keyword match and the
detector answering true, the verdict blocks with the provenance tag of
the script layer (the source literal for the abstract `script`
provenance is `"simplified-chinese"`), and the AI layer is not
invoked. -/
theorem analyzeText_script_blocks (converterS2T converterT2S : List Char → List Char)
    (settings : Settings) (aiResult : Except String Bool) (text : List Char)
    (hScript : settings.simplifiedChineseFilterEnabled = true)
    (hNoKw : checkKeywordMatch text (parseKeywords settings.keywords) = none)
    (hDet : isSimplifiedChinese converterS2T converterT2S text = true) :
    analyzeText converterS2T converterT2S (.ok settings) aiResult text =
      ({ shouldBlock := true, matched_by := "simplified-chinese"
         matched_keyword := none, error := none }, false) := by
  have hstage : keywordStage settings text = none := by
    unfold keywordStage
    split_ifs <;> simp [hNoKw]
  simp [analyzeText, hstage, strOptTruthy, hScript, hDet]

/-- Witness for C5: three Simplified-variant characters, no keywords
configured, script layer on. -/
theorem analyzeText_script_blocks_witness :
    analyzeText sampleConvS2T id (.ok sampleSettingsScript) (.ok false)
        sampleScriptText =
      ({ shouldBlock := true, matched_by := "simplified-chinese"
         matched_keyword := none, error := none }, false) :=
  analyzeText_script_blocks sampleConvS2T id sampleSettingsScript (.ok false)
    sampleScriptText rfl (by decide) (by decide)

/-- C10: whenever the keyword layer blocks, the matched keyword is the
normalized form produced by `parseKeywords` — some comma-separated
piece of the configured string, trimmed and lowercased — and a keywords
string consisting only of commas and whitespace parses to the empty
list, so the keyword layer never blocks on it. -/
theorem analyzeText_matched_keyword_normalized
    (converterS2T converterT2S : List Char → List Char) (settings : Settings)
    (aiResult : Except String Bool) (text : List Char) :
    ((analyzeText converterS2T converterT2S (.ok settings) aiResult text).1.matched_by
        = "keyword" →
      ∃ k, (analyzeText converterS2T converterT2S (.ok settings) aiResult text).1.matched_keyword
          = some k
        ∧ k ∈ parseKeywords settings.keywords
        ∧ ∃ piece ∈ splitOnComma settings.keywords, k = toLowerL (trimL piece))
    ∧ ((∀ c ∈ settings.keywords, c = ',' ∨ jsWhitespace c = true) →
        parseKeywords settings.keywords = []
        ∧ (analyzeText converterS2T converterT2S (.ok settings) aiResult text).1.matched_by
            ≠ "keyword") := by
  constructor
  · intro hby
    simp only [analyzeText] at hby ⊢
    split_ifs at hby ⊢ with h1 h2 h3 h4
    · rcases hks : keywordStage settings text with _ | k
      · rw [hks] at h1
        simp [strOptTruthy] at h1
      · obtain ⟨_, hck⟩ := keywordStage_some settings text k hks
        have hkmem : k ∈ parseKeywords settings.keywords := by
          unfold checkKeywordMatch at hck
          split_ifs at hck
          exact List.mem_of_find?_eq_some hck
        exact ⟨k, rfl, hkmem, parseKeywords_mem _ _ hkmem⟩
    · simp at hby
    · simp at hby
    · simp at hby
    · rcases aiResult with e | b
      · simp [failOpenResponse] at hby
      · simp at hby
  · intro hsep
    have hempty := parseKeywords_all_sep settings.keywords hsep
    refine ⟨hempty, ?_⟩
    have hks : keywordStage settings text = none := by
      unfold keywordStage
      rw [hempty]
      simp [checkKeywordMatch]
    simp only [analyzeText, hks]
    intro hby
    split_ifs at hby with h1 h2 h3 h4
    · simp [strOptTruthy] at h1
    · simp at hby
    · simp at hby
    · simp at hby
    · rcases aiResult with e | b
      · simp [failOpenResponse] at hby
      · simp at hby

/-- Witness for C10: a keywords string of commas and blanks parses to
nothing and the keyword layer does not block. -/
theorem analyzeText_matched_keyword_normalized_witness :
    parseKeywords sampleSettingsCommas.keywords = []
    ∧ (analyzeText id id (.ok sampleSettingsCommas) (.ok false)
        "anything at all".toList).1.matched_by ≠ "keyword" :=
  (analyzeText_matched_keyword_normalized id id sampleSettingsCommas (.ok false)
    "anything at all".toList).2 (by decide)

/-! Helper lemmas for the dedup invariant (C4, C9). -/

/-- State invariant: a hash has been sent exactly when it is recorded
in `analyzedTexts`, and no hash has been sent twice. -/
def DedupInv (st : PageState) : Prop :=
  (∀ h, h ∈ st.sent ↔ h ∈ st.analyzedTexts) ∧ st.sent.Nodup

theorem analyzeElementSync_inv (st : PageState) (e : Elem) (v : List Char)
    (hinv : DedupInv st) : DedupInv (analyzeElementSync st e v).1 := by
  obtain ⟨hsub, hnd⟩ := hinv
  simp only [analyzeElementSync]
  split_ifs with hlen hmem
  · exact ⟨hsub, hnd⟩
  · exact ⟨hsub, hnd⟩
  · refine ⟨?_, ?_⟩
    · intro h
      constructor
      · intro hh
        rcases List.mem_cons.mp hh with rfl | hh
        · exact List.mem_cons_self _ _
        · exact List.mem_cons_of_mem _ ((hsub h).mp hh)
      · intro hh
        rcases List.mem_cons.mp hh with rfl | hh
        · exact List.mem_cons_self _ _
        · exact List.mem_cons_of_mem _ ((hsub h).mpr hh)
    · refine List.nodup_cons.mpr ⟨?_, hnd⟩
      intro hcontra
      exact hmem ((hsub _).mp hcontra)

theorem analyzeElementSync_sent_mono (st : PageState) (e : Elem) (v h : List Char)
    (hh : h ∈ st.sent) : h ∈ (analyzeElementSync st e v).1.sent := by
  simp only [analyzeElementSync]
  split_ifs
  · exact hh
  · exact hh
  · exact List.mem_cons_of_mem _ hh

theorem analyzeElementSync_sent_of_dup (st : PageState) (e : Elem) (v : List Char)
    (hdup : hashText e.text ∈ st.analyzedTexts) :
    (analyzeElementSync st e v).1.sent = st.sent := by
  simp only [analyzeElementSync]
  split_ifs with hlen hmem
  · rfl
  · rfl

theorem runElems_inv (es : List Elem) :
    ∀ st : PageState, DedupInv st → DedupInv (runElems st es) := by
  induction es with
  | nil => intro st h; exact h
  | cons e es ih =>
    intro st h
    exact ih _ (analyzeElementSync_inv st e e.text h)

theorem runElems_sent_mono (es : List Elem) :
    ∀ (st : PageState) (h : List Char), h ∈ st.sent → h ∈ (runElems st es).sent := by
  induction es with
  | nil => intro st h hh; exact hh
  | cons e es ih =>
    intro st h hh
    exact ih _ h (analyzeElementSync_sent_mono st e e.text h hh)

theorem runElems_mem_sent (es : List Elem) :
    ∀ st : PageState, DedupInv st → ∀ e ∈ es, MIN_TEXT_LENGTH ≤ e.text.length →
      hashText e.text ∈ (runElems st es).sent := by
  induction es with
  | nil => intro st _ e he; cases he
  | cons e0 es ih =>
    intro st hinv e he hlen
    rcases List.mem_cons.mp he with rfl | he
    · have hstep : hashText e.text ∈ (analyzeElementSync st e e.text).1.sent := by
        simp only [analyzeElementSync]
        split_ifs with hl hmem
        · exact absurd hl (by omega)
        · exact (hinv.1 _).mpr hmem
        · exact List.mem_cons_self _ _
      exact runElems_sent_mono es _ _ hstep
    · exact ih _ (analyzeElementSync_inv st e0 e0.text hinv) e he hlen

theorem count_one_of_nodup_mem {α : Type} [BEq α] [LawfulBEq α]
    (l : List α) (a : α) (nd : l.Nodup) (ha : a ∈ l) : l.count a = 1 := by
  induction l with
  | nil => simp at ha
  | cons b l ih =>
    rw [List.count_cons]
    rcases List.mem_cons.mp ha with rfl | ha2
    · rw [List.count_eq_zero.mpr (List.nodup_cons.mp nd).1]
      simp
    · have hne : ¬(a == b) = true := by
        intro hb
        have : a = b := eq_of_beq hb
        subst this
        exact (List.nodup_cons.mp nd).1 ha2
      rw [ih (List.nodup_cons.mp nd).2 ha2]
      simp [hne]
      intro hba
      apply hne
      simp [hba]

/-- C4: a content hash is classified at most once per page lifetime.
From the initial page state, the log of dispatched classification
requests never repeats a hash; a hash already in the analyzed set is
dropped without a new request; and a qualifying element enqueued any
number of times yields exactly one request for its hash, because the
check and the insertion happen in the synchronous prefix of the task. -/
theorem analyzeElement_hash_once (es : List Elem) :
    ((runElems initPageState es).sent).Nodup
    ∧ (∀ (st : PageState) (e : Elem) (v : List Char),
        hashText e.text ∈ st.analyzedTexts →
        (analyzeElementSync st e v).1.sent = st.sent)
    ∧ (∀ e ∈ es, MIN_TEXT_LENGTH ≤ e.text.length →
        ((runElems initPageState es).sent).count (hashText e.text) = 1) := by
  have hinv0 : DedupInv initPageState := by
    constructor
    · intro h; simp [initPageState]
    · simp [initPageState]
  refine ⟨(runElems_inv es initPageState hinv0).2, ?_, ?_⟩
  · intro st e v hdup
    exact analyzeElementSync_sent_of_dup st e v hdup
  · intro e he hlen
    exact count_one_of_nodup_mem _ _ (runElems_inv es initPageState hinv0).2
      (runElems_mem_sent es initPageState hinv0 e he hlen)

/-- Witness for C4: the same element enqueued twice produces exactly
one classification request. -/
theorem analyzeElement_hash_once_witness :
    ((runElems initPageState [sampleElem, sampleElem]).sent).count
      (hashText sampleElem.text) = 1 :=
  (analyzeElement_hash_once [sampleElem, sampleElem]).2.2 sampleElem
    (List.mem_cons_self _ _) (by decide)

/-- C9: an element whose text hash is already in the analyzed set is
marked processed and dropped: no classification request is sent, its
displayed content `v` is returned untouched, and no blocking ever
happens for it. -/
theorem analyzeElement_dup_no_effect (st : PageState) (e : Elem) (v : List Char)
    (hdup : hashText e.text ∈ st.analyzedTexts)
    (hlen : MIN_TEXT_LENGTH ≤ e.text.length) :
    analyzeElementSync st e v = ({ st with processed := e.id :: st.processed }, v) := by
  simp only [analyzeElementSync]
  rw [if_neg (by omega), if_pos hdup]

/-- Witness for C9 at a concrete state and element. -/
theorem analyzeElement_dup_no_effect_witness :
    analyzeElementSync
        { analyzedTexts := [hashText sampleElem.text], processing := []
          processed := [], sent := [] } sampleElem sampleElem.text =
      ({ analyzedTexts := [hashText sampleElem.text], processing := []
         processed := [sampleElem.id], sent := [] }, sampleElem.text) :=
  analyzeElement_dup_no_effect
    { analyzedTexts := [hashText sampleElem.text], processing := []
      processed := [], sent := [] } sampleElem sampleElem.text
    (List.mem_singleton.mpr rfl) (by decide)

/-! Helper lemmas for the batch scheduler (C7). -/

theorem processElementsCore_eq_chunks (fuel : Nat) :
    ∀ es : List Elem, processElementsCore fuel es =
      (chunks5Core fuel es).flatMap
        fun b => [SchedEvent.batch b, SchedEvent.yield 100] := by
  induction fuel with
  | zero => intro es; rfl
  | succ fuel ih =>
    intro es
    simp only [processElementsCore, chunks5Core]
    split_ifs with h
    · rfl
    · simp [ih]

theorem chunks5Core_flatten (fuel : Nat) :
    ∀ es : List Elem, es.length ≤ fuel → (chunks5Core fuel es).flatten = es := by
  induction fuel with
  | zero =>
    intro es h
    have : es = [] := List.length_eq_zero.mp (Nat.le_zero.mp h)
    subst this
    rfl
  | succ fuel ih =>
    intro es h
    simp only [chunks5Core]
    split_ifs with he
    · rw [List.isEmpty_iff.mp he]
      rfl
    · rw [List.flatten_cons, ih (es.drop 5) (by rw [List.length_drop]; omega)]
      exact List.take_append_drop 5 es

theorem chunks5Core_sizes (fuel : Nat) :
    ∀ (es : List Elem) (b : List Elem), b ∈ chunks5Core fuel es →
      0 < b.length ∧ b.length ≤ 5 := by
  induction fuel with
  | zero => intro es b hb; simp [chunks5Core] at hb
  | succ fuel ih =>
    intro es b hb
    simp only [chunks5Core] at hb
    split_ifs at hb with he
    · simp at hb
    · rcases List.mem_cons.mp hb with rfl | hb
      · rw [List.length_take]
        have : es ≠ [] := by
          intro h
          rw [h] at he
          simp at he
        have : 0 < es.length := List.length_pos.mpr this
        omega
      · exact ih _ b hb

theorem chunks5Core_lens (fuel : Nat) :
    ∀ es : List Elem, (chunks5Core fuel es).map List.length
      = chunkLens fuel es.length := by
  induction fuel with
  | zero => intro es; rfl
  | succ fuel ih =>
    intro es
    simp only [chunks5Core, chunkLens]
    by_cases he : es.isEmpty
    · rw [if_pos he, if_pos (by simpa [List.isEmpty_iff, List.length_eq_zero] using he)]
      rfl
    · rw [if_neg he, if_neg (by simpa [List.isEmpty_iff, List.length_eq_zero] using he)]
      simp only [List.map_cons, List.length_take]
      rw [ih (es.drop 5), List.length_drop]

/-- C7: `processElements` dispatches the queue in consecutive groups of
at most 5, partitioning the list in order, with a 100ms yield following
each group (so in particular between successive groups); a queue of 12
fragments yields exactly 3 groups of sizes 5, 5, 2 in that order. -/
theorem processElements_batching (es : List Elem) :
    processElements es =
      (chunks5 es).flatMap (fun b => [SchedEvent.batch b, SchedEvent.yield 100])
    ∧ (chunks5 es).flatten = es
    ∧ (∀ b ∈ chunks5 es, 0 < b.length ∧ b.length ≤ 5)
    ∧ (es.length = 12 → (chunks5 es).map List.length = [5, 5, 2]) := by
  refine ⟨processElementsCore_eq_chunks es.length es,
    chunks5Core_flatten es.length es (le_refl _),
    fun b hb => chunks5Core_sizes es.length es b hb, ?_⟩
  intro h12
  rw [chunks5, chunks5Core_lens es.length es, h12]
  decide

/-- Witness for C7: twelve queued fragments produce groups of sizes
5, 5, 2. -/
theorem processElements_batching_witness :
    (chunks5 sampleQueue12).map List.length = [5, 5, 2] :=
  (processElements_batching sampleQueue12).2.2.2 (by decide)

/-! Theorems for the AI classifier (C6). -/

theorem jsonObjectMatch_empty : jsonObjectMatch "" = none := rfl

/-- C6 (amended): for a response whose body parsed to `data` with a
string `content` field `s`, the classifier raises an error exactly when
the HTTP status is non-success, the content is empty, or no
brace-delimited JSON-object substring of the reply parses to an object;
when a JSON object is located and parsed, the verdict is the JavaScript
truthiness of its shouldBlock field — `false` when the field is missing
or falsy, but `true` for any truthy non-boolean value
(`Boolean(parsed.shouldBlock)`). -/
theorem analyzeWithGroq_parse_contract
    (jsonParse : String → Except String JsVal) (resp : GroqHttpResponse)
    (data : JsVal) (s : String)
    (hData : resp.jsonBody = .ok data)
    (hContent : getContent data = .ok (.str s))
    (hParseObj : ∀ sub v, jsonObjectMatch s = some sub → jsonParse sub = .ok v →
      ∃ fields, v = .obj fields) :
    ((∃ e, analyzeWithGroq jsonParse resp = .error e) ↔
      resp.ok = false ∨ s = ""
      ∨ ¬∃ sub fields, jsonObjectMatch s = some sub
          ∧ jsonParse sub = .ok (.obj fields))
    ∧ (∀ sub fields, resp.ok = true → jsonObjectMatch s = some sub →
        jsonParse sub = .ok (.obj fields) →
        analyzeWithGroq jsonParse resp
          = .ok (jsTruthy (jsLookup fields "shouldBlock"))) := by
  by_cases hok : resp.ok = true
  · by_cases hs : s = ""
    · subst hs
      have hred : analyzeWithGroq jsonParse resp = .error "No content in Groq response" := by
        simp [analyzeWithGroq, hok, hData, hContent, Bind.bind, Except.bind, jsTruthy]
      constructor
      · rw [hred]
        constructor
        · intro _
          exact Or.inr (Or.inl rfl)
        · intro _
          exact ⟨_, rfl⟩
      · intro sub fields _ hm _
        rw [jsonObjectMatch_empty] at hm
        cases hm
    · rcases hm : jsonObjectMatch s with _ | sub
      · have hred : analyzeWithGroq jsonParse resp
            = .error "Failed to parse LLM response: Error: No JSON found in response" := by
          simp [analyzeWithGroq, hok, hData, hContent, Bind.bind, Except.bind, jsTruthy, hs, hm]
        constructor
        · rw [hred]
          constructor
          · intro _
            refine Or.inr (Or.inr ?_)
            rintro ⟨sub, fields, hsub, _⟩
            cases hsub
          · intro _
            exact ⟨_, rfl⟩
        · intro sub fields _ hm2 _
          cases hm2
      · rcases hp : jsonParse sub with e | v
        · have hred : analyzeWithGroq jsonParse resp
              = .error ("Failed to parse LLM response: " ++ e) := by
            simp [analyzeWithGroq, hok, hData, hContent, Bind.bind, Except.bind, jsTruthy, hs, hm, hp]
          constructor
          · rw [hred]
            constructor
            · intro _
              refine Or.inr (Or.inr ?_)
              rintro ⟨sub2, fields, hsub, hpp⟩
              cases hsub
              rw [hp] at hpp
              cases hpp
            · intro _
              exact ⟨_, rfl⟩
          · intro sub2 fields _ hm2 hp2
            cases hm2
            rw [hp] at hp2
            cases hp2
        · obtain ⟨fields, rfl⟩ := hParseObj sub v hm hp
          have hred : analyzeWithGroq jsonParse resp
              = .ok (jsTruthy (jsLookup fields "shouldBlock")) := by
            simp [analyzeWithGroq, hok, hData, hContent, Bind.bind, Except.bind, jsTruthy, hs,
              hm, hp, jsMember, jsMemberNN, jsNullish]
          constructor
          · rw [hred]
            constructor
            · rintro ⟨e, he⟩
              cases he
            · intro hcond
              rcases hcond with h | h | h
              · rw [hok] at h
                cases h
              · exact absurd h hs
              · exact absurd ⟨sub, fields, rfl, hp⟩ h
          · intro sub2 fields2 _ hm2 hp2
            cases hm2
            rw [hp] at hp2
            cases hp2
            exact hred
  · have hokf : resp.ok = false := by
      cases hr : resp.ok
      · rfl
      · exact absurd hr hok
    have hred : analyzeWithGroq jsonParse resp
        = .error ("Groq API error: " ++ toString resp.status ++ " - " ++ resp.errorBody) := by
      simp [analyzeWithGroq, hokf]
    constructor
    · rw [hred]
      constructor
      · intro _
        exact Or.inl hokf
      · intro _
        exact ⟨_, rfl⟩
    · intro sub fields hok2 _ _
      exact absurd hok2 hok

/-- Witness for C6 at a concrete well-formed exchange with a boolean
shouldBlock field. -/
theorem analyzeWithGroq_parse_contract_witness :
    analyzeWithGroq sampleParseYes sampleRespYes = .ok true :=
  (analyzeWithGroq_parse_contract sampleParseYes sampleRespYes
      (.obj [("choices",
        .arr [.obj [("message", .obj [("content", .str sampleBodyYes)])]])])
      sampleBodyYes rfl rfl
      (by
        intro sub v hm hp
        rw [show jsonObjectMatch sampleBodyYes = some sampleBodyYes from rfl] at hm
        cases hm
        rw [show sampleParseYes sampleBodyYes
            = .ok (.obj [("shouldBlock", .bool true)]) from rfl] at hp
        cases hp
        exact ⟨_, rfl⟩)).2
    sampleBodyYes [("shouldBlock", JsVal.bool true)] rfl rfl rfl

/-- C6 counterexample: the reply `{"shouldBlock": "no"}` has a
malformed (string-valued, truthy) shouldBlock field, and the classifier
returns a block verdict `true` rather than `false`, refuting the claim
that a malformed field never yields a block. -/
theorem analyzeWithGroq_truthy_string_blocks :
    sampleParseNo sampleBodyNo = .ok (.obj [("shouldBlock", JsVal.str "no")])
    ∧ analyzeWithGroq sampleParseNo sampleRespNo = .ok true :=
  ⟨rfl, rfl⟩

end ContentFilter
